import Mathlib

/-!
Shallow embedding of the layered virtual filesystem implemented in
`src/filesystem/CFileSystem.cpp` (class `CFileSystem`), together with proofs
about its behaviour.  The model follows the source line by line; external
OS facilities (`fopen`, `fread`, `fseek`, `std::experimental::filesystem`
queries, `std::regex`) are modelled as explicit oracles or as executable
functions over mathematical integers.  The platform is modelled as POSIX,
where `fs::path::make_preferred` is the identity on path strings.
-/

namespace PrototypeFS

/-- Warning severity levels from `FileWarningLevel_t`; only the levels that the
modelled code paths emit are represented. -/
inductive FileWarningLevel where
  | reportUnclosed
  | reportAllAccesses
  | critical
deriving DecidableEq, Repr

/-! ## Wildcard patterns and the regex fragment they compile to

`CFileSystem::FindFirst` (lines 561-611) textually replaces every `*` of the
wildcard with `.*` and hands the result to `std::regex` (ECMAScript), matching
candidates with `std::regex_match` (whole-string match).  For patterns whose
remaining characters are `.` or regex-ordinary characters, the resulting regex
is a plain sequence of three kinds of atoms, modelled by `Tok`. -/

/-- Atoms of the regex fragment produced by the wildcard translation:
a literal character, `.` (any single character), or `.*` (any sequence). -/
inductive Tok where
  | lit (c : Char)
  | anyc
  | star
deriving DecidableEq, Repr

/-- Whole-string matching of a token sequence, the model of
`std::regex_match` on the regex fragment of `Tok`.  The `star` case matches
when the remaining tokens match some suffix of the input. -/
def rmatch : List Tok → List Char → Bool
  | [], s => s.isEmpty
  | Tok.lit c :: ts, s =>
    match s with
    | [] => false
    | x :: s' => (x == c) && rmatch ts s'
  | Tok.anyc :: ts, s =>
    match s with
    | [] => false
    | _ :: s' => rmatch ts s'
  | Tok.star :: ts, s => s.tails.any (fun t => rmatch ts t)

/-- Characters that ECMAScript regular expressions treat as ordinary,
self-matching atoms: everything except the special characters
`^ $ \ . * + ? ( ) [ ] |` and the two brace characters (code points 123
and 125). -/
def regexOrdinary (c : Char) : Bool :=
  !(['^', '$', '\\', '.', '*', '+', '?', '(', ')', '[', ']',
     Char.ofNat 123, Char.ofNat 125, '|'].contains c)

/-- Translation performed by `FindFirst` lines 572-581: each `*` becomes the
regex `.*`; every other character is passed to `std::regex` unescaped, so `.`
keeps its regex meaning (any single character) and regex-ordinary characters
denote themselves.  This definition is faithful to
`std::regex` (ECMAScript) exactly on patterns whose characters are
`regexOrdinary`, `'.'` or `'*'`; patterns holding any other regex special
character (`+`, `?`, `(`, ... — which `std::regex` treats as operators or
rejects) are outside the modelled fragment, and no theorem below quantifies
over them.  `fs::path::make_preferred` is the identity (POSIX). -/
def compileWildcard (p : List Char) : List Tok :=
  p.map (fun c => if c == '*' then Tok.star else if c == '.' then Tok.anyc else Tok.lit c)

/-- Modelled from the spec: the claim's reading of the wildcard compiler, in
which each bare `*` matches any sequence and every other character matches
only itself literally.  Used to compare the claimed semantics with the
code's actual regex translation `compileWildcard`. -/
def specCompile (p : List Char) : List Tok :=
  p.map (fun c => if c == '*' then Tok.star else Tok.lit c)

/-! ## Strings, paths and search paths -/

/-- Case-insensitive string equality, the model of `stricmp(a, b) == 0`. -/
def stricmpEq (a b : String) : Bool :=
  a.toList.map Char.toLower == b.toList.map Char.toLower

/-- Substring search, the model of `strstr(hay, needle) != nullptr`. -/
def strstrB (needle : List Char) : List Char → Bool
  | [] => needle.isEmpty
  | c :: t => needle.isPrefixOf (c :: t) || strstrB needle t

/-- Model of `fs::path::make_preferred` on POSIX: the identity on the path
string (no separator is rewritten). -/
def makePreferred (s : String) : String := s

/-- Model of `fs::path(a) / b` for a nonempty relative `b`: the two parts
joined with the POSIX separator. -/
def joinPath (a b : String) : String := a ++ "/" ++ b

/-- Pack archive directory entry as stored in `CSearchPath::Entries_t`:
normalized file name, byte offset of the entry, byte length of the entry. -/
abbrev PackEntry := String × Nat × Nat

/-- One mount point (`CSearchPath`): normalized location, optional path ID
tag, the `READ_ONLY` and `IS_PACK_FILE` flags, and the pack entry table
(empty unless the path is archive-backed). -/
structure SearchPath where
  szPath : String
  pathID : Option String
  readOnly : Bool
  isPack : Bool
  packEntries : List PackEntry
deriving DecidableEq, Repr

/-- Path ID mismatch test used by the resolution loops
(`pathID && (!sp->pszPathID || strcmp(pathID, sp->pszPathID) != 0)`):
when a filter is supplied, a search path with no tag or a different tag is
skipped. -/
def pidMismatchB (pid : Option String) (ppid : Option String) : Bool :=
  match pid with
  | none => false
  | some a =>
    match ppid with
    | none => true
    | some b => a != b

/-- Model of `CFileSystem::FindSearchPath` (lines 1092-1106): first search
path whose location compares case-insensitively equal, and, when
`checkPid` is set, whose path ID is both-null or both-non-null-and-equal
(which is exactly equality of the two optional tags). -/
def findSearchPath (st : List SearchPath) (s : String) (checkPid : Bool)
    (pid : Option String) : Option SearchPath :=
  match st with
  | [] => none
  | p :: rest =>
    if stricmpEq s p.szPath && (!checkPid || pid == p.pathID) then some p
    else findSearchPath rest s checkPid pid

/-- Model of `CFileSystem::AddSearchPath` (lines 1108-1141): fails on a null
path, on a path containing `.bsp`, or on a `(path, pathID)` duplicate;
otherwise appends a non-archive search path (read-only when requested)
and reports success. -/
def AddSearchPath (st : List SearchPath) (p : Option String)
    (pid : Option String) (ro : Bool) : List SearchPath × Bool :=
  match p with
  | none => (st, false)
  | some s =>
    if strstrB (String.toList (".bsp")) s.toList then (st, false)
    else if (findSearchPath st s true pid).isSome then (st, false)
    else (st ++ [⟨makePreferred s, pid, ro, false, []⟩], true)

/-- Model of `Entries_t::emplace` in `ProcessPackFile` line 947: the keyed
mapping inserts only when the key is absent, so an existing entry with the
same name is kept unchanged. -/
def emplaceEntry (es : List PackEntry) (e : PackEntry) : List PackEntry :=
  if es.any (fun x => x.1 == e.1) then es else es ++ [e]

/-- Model of the record loop of `ProcessPackFile` (lines 941-948): each raw
directory record has its name normalized (`make_preferred`, identity on
POSIX) and is inserted into the entry mapping with `emplace`. -/
def processPackEntries (records : List PackEntry) : List PackEntry :=
  records.foldl (fun es r => emplaceEntry es (makePreferred r.1, r.2.1, r.2.2)) []

/-- Lookup in the pack entry mapping, the model of `packEntries.find(name)`. -/
def lookupEntry (es : List PackEntry) (n : String) : Option PackEntry :=
  es.find? (fun e => e.1 == n)

/-- Model of `CFileSystem::RemoveSearchPath` (lines 34-47): erases the first
search path whose location compares case-insensitively equal.  Modelled from
the spec: the defaulted arguments of `FindSearchPath` at this call site are
declared in the missing `CFileSystem.h`; per spec 4.2, `remove` ignores the
path ID, so the default performs no path ID check. -/
def removeFirstPath (s : String) : List SearchPath → List SearchPath
  | [] => []
  | p :: rest => if stricmpEq s p.szPath then rest else p :: removeFirstPath s rest

/-- One mount operation against the registry.  For `addPack`, the outcome of
opening the archive, reading and validating its header and bulk-reading the
directory records (external I/O performed by `CFileSystem::AddPackFile` and
`ProcessPackFile`) is abstracted as `records`: `none` when any step fails
(the registry is then left unchanged), `some rs` with the raw directory
records on success. -/
inductive MountOp where
  | addDir (p : Option String) (pid : Option String) (ro : Bool)
  | addPack (p : Option String) (pid : Option String) (records : Option (List PackEntry))
  | removePath (p : Option String)
  | removeAll
deriving Repr

/-- Whether a mount operation is an `addPack`. -/
def MountOp.isPackOp : MountOp → Bool
  | .addPack _ _ _ => true
  | _ => false

/-- Registry effect of one mount operation.  `addDir` is
`CFileSystem::AddSearchPath`; `addPack` is the registry effect of
`CFileSystem::AddPackFile` (lines 953-1020), which performs no duplicate
check and on success appends a search path flagged
`READ_ONLY | IS_PACK_FILE` with the processed entry table; `removePath` is
`RemoveSearchPath`; `removeAll` is `RemoveAllSearchPaths`. -/
def applyMount (st : List SearchPath) : MountOp → List SearchPath
  | .addDir p pid ro => (AddSearchPath st p pid ro).1
  | .addPack p pid records =>
    match p, records with
    | some fp, some rs =>
      st ++ [⟨makePreferred fp, pid, true, true, processPackEntries rs⟩]
    | _, _ => st
  | .removePath p =>
    match p with
    | none => st
    | some s => removeFirstPath s st
  | .removeAll => []

/-- Registry reached from the empty registry by a sequence of mount
operations. -/
def mountAll (ops : List MountOp) : List SearchPath :=
  ops.foldl applyMount []

/-- Statement of the claimed registry invariant: no two registered search
paths share the same `(location, pathID)` pair, comparing locations
case-insensitively. -/
def NoDupPairs (st : List SearchPath) : Prop :=
  List.Pairwise (fun p q => ¬(stricmpEq p.szPath q.szPath = true ∧ p.pathID = q.pathID)) st

instance (st : List SearchPath) : Decidable (NoDupPairs st) :=
  List.instDecidablePairwise st

/-- Invariant that every archive-backed search path is flagged read-only
(`AddPackFile` sets `READ_ONLY | IS_PACK_FILE` together; `AddSearchPath`
never sets `IS_PACK_FILE`). -/
def PackRO (st : List SearchPath) : Prop :=
  ∀ p ∈ st, p.isPack = true → p.readOnly = true

/-! ## File handles

`CFileHandle` itself lives in a header that is not part of the sources, so
its fields are modelled from the spec (section 3, FileHandle): an open flag,
a `PLAIN` / `ARCHIVE_VIEW` mode, the `(startOffset, length)` window of an
archive view, and the raw position of the underlying stream (`ftell`).  The
byte length of the underlying OS stream is passed to each operation as the
`streamLen` parameter of the model. -/

/-- An open file (`CFileHandle`): mode flag, archive window, and the raw
stream cursor.  Positions are exact naturals; the C `long` positions of the
claims all fit. -/
structure FileHandle where
  isOpen : Bool
  isPack : Bool
  startOffset : Nat
  length : Nat
  rawPos : Nat
deriving DecidableEq, Repr

/-- Model of `fread(buf, 1, size, f)` on a stream of `streamLen` bytes with
cursor `rawPos`: the number of bytes actually read.  The C `int` size
parameter is modelled for non-negative sizes. -/
def freadCount (streamLen rawPos size : Nat) : Nat :=
  min size (streamLen - rawPos)

/-- Model of `CFileSystem::Read` (lines 421-463), returning the byte count
the call reports.  For a pack entry: return 0 for an empty view or a
relative cursor at or past `length`; otherwise `fread` up to `size` bytes,
then, when the request reaches past the window, clamp the result to
`(length + 1) - relativePos` (the source computes the bound with `+ 1`). -/
def Read (streamLen : Nat) (h : FileHandle) (size : Nat) : Nat :=
  if !h.isOpen then 0
  else if h.isPack then
    if h.length == 0 then 0
    else
      let relativePos : Int := (h.rawPos : Int) - (h.startOffset : Int)
      if relativePos ≥ (h.length : Int) then 0
      else
        let result := freadCount streamLen h.rawPos size
        if relativePos + (size : Int) ≥ (h.length : Int) + 1 then
          min result (((h.length : Int) + 1 - relativePos).toNat)
        else result
  else freadCount streamLen h.rawPos size

/-- Seek origins of `FileSystemSeek_t` (`FILESYSTEM_SEEK_HEAD`, `_CURRENT`,
`_TAIL`); the enum is closed, so the warning branch of `Seek` for other
values is unreachable in the model. -/
inductive SeekType where
  | head
  | current
  | tail
deriving DecidableEq, Repr

/-- Model of `fseek` on a stream of `streamLen` bytes: the resulting raw
position.  A target before the start of the stream makes `fseek` fail and
leaves the position unchanged. -/
def fseekPos (streamLen rawPos : Nat) (pos : Int) (origin : SeekType) : Nat :=
  let target : Int :=
    match origin with
    | .head => pos
    | .current => (rawPos : Int) + pos
    | .tail => (streamLen : Int) + pos
  if target < 0 then rawPos else target.toNat

/-- Model of `CFileSystem::Seek` (lines 221-272).  A closed or invalid handle
only warns and returns.  For a pack entry, `SEEK_HEAD` adds `startOffset` to
`pos` and `SEEK_TAIL` becomes `SEEK_HEAD` at `startOffset + length + pos`;
the translated request is then passed to `fseek`. -/
def Seek (streamLen : Nat) (h : FileHandle) (pos : Int) (seekType : SeekType) : FileHandle :=
  if !h.isOpen then h
  else
    let pt : Int × SeekType :=
      if h.isPack then
        match seekType with
        | .head => (pos + (h.startOffset : Int), .head)
        | .tail => (pos + (h.startOffset : Int) + (h.length : Int), .head)
        | .current => (pos, .current)
      else (pos, seekType)
    { h with rawPos := fseekPos streamLen h.rawPos pt.1 pt.2 }

/-- Model of `CFileSystem::Tell` (lines 274-298): 0 for a closed or invalid
handle; for a pack entry `ftell - startOffset`, otherwise `ftell`, in both
cases converted to `unsigned int` (reduction modulo `2 ^ 32`). -/
def Tell (h : FileHandle) : Nat :=
  if !h.isOpen then 0
  else if h.isPack then ((((h.rawPos : Int) - (h.startOffset : Int)) % (2 ^ 32 : Int)).toNat)
  else h.rawPos % 2 ^ 32

/-! ## Resolver -/

/-- OS oracle for `CFileHandle` construction inside `CFileSystem::Open`:
whether `fopen(fullPath, options)` succeeds. -/
structure OpenEnv where
  canOpen : String → String → Bool

/-- Search loop of `CFileSystem::Open` (lines 165-185): skip read-only paths
when writing, skip path ID mismatches, build `location/fileName`
(`make_preferred`), and return the first search path where the OS open
succeeds, together with the concrete path opened. -/
def openLoop (env : OpenEnv) (nm op : String) (w : Bool) (pid : Option String) :
    List SearchPath → Option (SearchPath × String)
  | [] => none
  | p :: rest =>
    if p.readOnly && w then openLoop env nm op w pid rest
    else if pidMismatchB pid p.pathID then openLoop env nm op w pid rest
    else
      let full := makePreferred (joinPath p.szPath nm)
      if env.canOpen full op then some (p, full) else openLoop env nm op w pid rest

/-- Model of `CFileSystem::Open` (lines 156-188): null name or options give
the invalid handle; write intent is `strchr(options, 'w')`; otherwise the
registration-ordered search.  The result abstracts the produced handle by
the search path selected and the concrete path opened; `none` is
`FILESYSTEM_INVALID_HANDLE`. -/
def Open (st : List SearchPath) (env : OpenEnv) (name opts : Option String)
    (pid : Option String) : Option (SearchPath × String) :=
  match name, opts with
  | some nm, some op => openLoop env nm op (op.toList.contains 'w') pid st
  | _, _ => none

/-- Search loop of `CFileSystem::OpenFromCacheForRead` (lines 1037-1061):
consider only pack search paths passing the path ID filter, normalize the
name, look it up in the pack entry table, and build an archive-view handle
on the first hit.  Modelled from the spec: the missing `CFileHandle` pack
constructor positions the shared stream at the start of the window, so the
fresh handle's raw cursor is `startOffset`. -/
def ofcfrLoop (nm : String) (pid : Option String) :
    List SearchPath → Option FileHandle
  | [] => none
  | p :: rest =>
    if !p.isPack then ofcfrLoop nm pid rest
    else if pidMismatchB pid p.pathID then ofcfrLoop nm pid rest
    else
      match lookupEntry p.packEntries (makePreferred nm) with
      | none => ofcfrLoop nm pid rest
      | some e => some ⟨true, true, e.2.1, e.2.2, e.2.1⟩

/-- Model of `CFileSystem::OpenFromCacheForRead` (lines 1022-1064): null
name or options give the invalid handle; any options containing `w` are
rejected outright with a critical warning and the invalid handle; otherwise
the pack-only search.  `none` is `FILESYSTEM_INVALID_HANDLE`. -/
def OpenFromCacheForRead (st : List SearchPath) (name opts : Option String)
    (pid : Option String) : Option FileHandle :=
  match name, opts with
  | some nm, some op =>
    if op.toList.contains 'w' then none
    else ofcfrLoop nm pid st
  | _, _ => none

/-! ## Open-handle table and Close -/

/-- Search of `m_OpenedFiles` by handle identity followed by erasure, the
loop of `CFileSystem::Close` lines 197-206 and the erase at line 218: `none`
when the handle is not in the table, otherwise the table without the found
entry plus the warning level emitted (`REPORTALLACCESSES` for an open file,
`CRITICAL` for an already-closed one).  Table entries are
`(handle identity, isOpen)`. -/
def closeScan : List (Nat × Bool) → Nat → Option (List (Nat × Bool) × FileWarningLevel)
  | [], _ => none
  | e :: rest, id =>
    if e.1 == id then
      some (rest, if e.2 then FileWarningLevel.reportAllAccesses else FileWarningLevel.critical)
    else (closeScan rest id).map (fun r => (e :: r.1, r.2))

/-- Model of `CFileSystem::Close` (lines 190-219): `FILESYSTEM_INVALID_HANDLE`
(`none`) returns immediately; a handle value absent from `m_OpenedFiles`
returns with the table unchanged and no warning; otherwise the entry is
closed if still open (with a low-severity notification, or a critical
warning when already closed) and erased. -/
def Close (tbl : List (Nat × Bool)) (h : Option Nat) :
    List (Nat × Bool) × List FileWarningLevel :=
  match h with
  | none => (tbl, [])
  | some id =>
    match closeScan tbl id with
    | none => (tbl, [])
    | some (l, w) => (l, [w])

/-! ## Find cursors -/

/-- Enumeration cursor (`FindFileData`): the path ID filter (empty string
when none was supplied), the compiled wildcard, and the `VALID` /
`END_OF_DATA` flags.  The recursive directory iterator state is not
represented; `FindClose` never consults it. -/
structure FindData where
  szPathID : String
  filter : List Tok
  valid : Bool
  endOfData : Bool
deriving DecidableEq, Repr

/-- Model of `CFileSystem::FindClose` (lines 692-720).  An out-of-range
handle returns; a cursor already flagged invalid returns (idempotence).
Closing the last cursor runs the reclaim loop of lines 707-713, which tests
`data.flags` — the flags of the cursor being closed, known `VALID` at this
point — and therefore breaks on its first iteration, erasing nothing.
Closing a non-last cursor clears its `VALID` flag in place. -/
def FindClose (tbl : List FindData) (h : Nat) : List FindData :=
  if hlt : h < tbl.length then
    let d := tbl.get ⟨h, hlt⟩
    if !d.valid then tbl
    else if h == tbl.length - 1 then tbl
    else tbl.set h { d with valid := false }
  else tbl

/-- Model of `CFileSystem::FindFirst` (lines 561-611).  The construction of
the `std::regex` from the translated wildcard is abstracted as `compiled`
(`none` when `std::regex` throws `regex_error`); the result of the first
`FindNext` advance, a recursive walk of the mounted directories, is
abstracted as `advance`.  On compile failure the warning is emitted, the
cursor table is untouched and the invalid find handle (`none`) is returned.
On success a valid cursor is appended (its `szPathID` is the filter or the
empty string); if the first advance finds nothing the fresh cursor is
`FindClose`d and the invalid handle returned. -/
def FindFirst (tbl : List FindData) (compiled : Option (List Tok))
    (pid : Option String) (advance : Option String) :
    List FindData × Option Nat × List FileWarningLevel :=
  match compiled with
  | none => (tbl, none, [FileWarningLevel.critical])
  | some f =>
    let tbl' := tbl ++ [⟨pid.getD ("" : String), f, true, false⟩]
    match advance with
    | some _ => (tbl', some tbl.length, [])
    | none => (FindClose tbl' tbl.length, none, [])

/-! ## Metadata queries -/

/-- OS filesystem oracle for the metadata queries: existence, size
(`fs::file_size` with its error code, `none` on error) and last write time
(`fs::last_write_time` epoch count). -/
structure FsEnv where
  fsExists : String → Bool
  fileSize : String → Option Nat
  mtime : String → Int

/-- Model of `CFileSystem::Size(const char*)` (lines 319-327): a null name
returns 0; otherwise `fs::file_size(pFileName, error)` is called on the name
itself — no search-path scan and no archive lookup — and the `uintmax_t`
result is converted to `unsigned int` (`2 ^ 32 - 1` for the error value
`static_cast<uintmax_t>(-1)`).  The registry parameter mirrors the method's
access to `this` and is not consulted. -/
def SizeName (st : List SearchPath) (env : FsEnv) (name : Option String) : Nat :=
  match name with
  | none => 0
  | some n =>
    match env.fileSize n with
    | some v => v % 2 ^ 32
    | none => 2 ^ 32 - 1

/-- Scan loop of `CFileSystem::GetFileTime` (lines 335-343): first search
path where `location/name` exists wins and its last write time is
returned. -/
def gftLoop (env : FsEnv) (n : String) : List SearchPath → Int
  | [] => 0
  | p :: rest =>
    let full := joinPath p.szPath n
    if env.fsExists full then env.mtime full else gftLoop env n rest

/-- Model of `CFileSystem::GetFileTime` (lines 329-346): the ordered scan,
returning 0 when no search path contains the file. -/
def GetFileTime (st : List SearchPath) (env : FsEnv) (n : String) : Int :=
  gftLoop env n st

/-- Modelled from the spec: the claim's ordered scan for `fileTime`, phrased
independently via `List.find?` — the first search path whose joined physical
path exists determines the result. -/
def gftSpec (st : List SearchPath) (env : FsEnv) (n : String) : Int :=
  match st.find? (fun p => env.fsExists (joinPath p.szPath n)) with
  | some p => env.mtime (joinPath p.szPath n)
  | none => 0

/-- Modelled from the spec: the claim's ordered scan for `fileSize-by-name`,
returning the filesystem-level size of the first matching physical path
`location/relativePath` in registration order. -/
def sizeSpecScan (st : List SearchPath) (env : FsEnv) (n : String) : Option Nat :=
  match st.find? (fun p => env.fsExists (joinPath p.szPath n)) with
  | some p => env.fileSize (joinPath p.szPath n)
  | none => none

/-! ## Concrete states used by the claim theorems -/

/-- One-archive registry holding the entry `sound/a.wav` at `(128, 64)`. -/
def c1Paths : List SearchPath :=
  [⟨"pak0.pak", none, true, true, [(("sound/a.wav"), 128, 64)]⟩]

/-- Archive-view handle onto the window `(128, 64)` with its cursor at the
window start. -/
def c1Handle : FileHandle := ⟨true, true, 128, 64, 128⟩

/-- Single-directory registry used by the C2 counterexample. -/
def c2St : List SearchPath := [⟨"/base", none, false, false, []⟩]

/-- OS oracle in which only `/base/f` exists, with size 10. -/
def c2Env : FsEnv :=
  ⟨fun s => s == "/base/f",
   fun s => if s == "/base/f" then some 10 else none,
   fun _ => 0⟩

/-- A valid find cursor with an empty filter. -/
def c5Cursor : FindData := ⟨"", [], true, false⟩

/-- Mounting the same archive twice under the same (absent) path ID. -/
def c6Ops : List MountOp :=
  [MountOp.addPack (some ("pak0.pak")) none (some []),
   MountOp.addPack (some ("pak0.pak")) none (some [])]

/-- Mount sequence with no archive operation, used as the C6 witness. -/
def c6WitnessOps : List MountOp :=
  [MountOp.addDir (some ("/base")) none false,
   MountOp.addDir (some ("/base")) none false,
   MountOp.addDir (some ("/mod")) (some ("GAME")) true,
   MountOp.removePath (some ("/base"))]

/-- Single writable-directory mount used by the C8 witness. -/
def c8Ops : List MountOp := [MountOp.addDir (some ("/mod")) none false]

/-- OS open oracle for which every open succeeds. -/
def c8Env : OpenEnv := ⟨fun _ _ => true⟩

/-- The search path `c8Ops` registers. -/
def c8Path : SearchPath := ⟨"/mod", none, false, false, []⟩

/-- Archive-view handle used by the C9 witness. -/
def c9Handle : FileHandle := ⟨true, true, 128, 64, 128⟩

/-! ## Helper lemmas -/

/-- Normalizing a pack record on POSIX is the identity. -/
theorem normalize_packEntry (r : PackEntry) : (makePreferred r.1, r.2.1, r.2.2) = r := rfl

/-- Effect of one `emplace` on entry lookup: an existing key shadows the new
record; an absent key makes the new record visible. -/
theorem lookupEntry_emplace (es : List PackEntry) (e : PackEntry) (n : String) :
    lookupEntry (emplaceEntry es e) n =
      match lookupEntry es n with
      | some x => some x
      | none => if e.1 == n then some e else none := by
  by_cases hany : es.any (fun x => x.1 == e.1)
  · have hes : emplaceEntry es e = es := by simp [emplaceEntry, hany]
    rw [hes]
    cases hl : lookupEntry es n with
    | some x => rfl
    | none =>
      have hnot : (e.1 == n) = false := by
        by_contra hcon
        have he : e.1 = n := by
          have := Bool.not_eq_false (e.1 == n) |>.mp hcon
          exact beq_iff_eq.mp this
        rcases List.any_eq_true.mp hany with ⟨x, hx, hxe⟩
        have hx1 : x.1 = e.1 := beq_iff_eq.mp hxe
        have : ∀ y ∈ es, ¬ (y.1 == n) = true := by
          have := List.find?_eq_none.mp hl
          simpa [lookupEntry] using this
        exact this x hx (by simp [hx1, he])
      simp [hnot]
  · have hes : emplaceEntry es e = es ++ [e] := by simp [emplaceEntry, hany]
    rw [hes]
    unfold lookupEntry
    rw [List.find?_append]
    cases hl : es.find? (fun x => x.1 == n) with
    | some x => rfl
    | none =>
      by_cases he : (e.1 == n) = true <;> simp [List.find?, he, Option.or]

/-- Lookup through the `emplace` fold of `ProcessPackFile`: entries already
in the accumulator win, and otherwise the first record with the requested
name wins. -/
theorem lookupEntry_foldl (rs : List PackEntry) (acc : List PackEntry) (n : String) :
    lookupEntry (rs.foldl (fun es r => emplaceEntry es (makePreferred r.1, r.2.1, r.2.2)) acc) n
      = match lookupEntry acc n with
        | some x => some x
        | none => rs.find? (fun e => e.1 == n) := by
  induction rs generalizing acc with
  | nil =>
    cases hl : lookupEntry acc n <;> simp [List.foldl, hl]
  | cons r rs ih =>
    have hstep : rs.foldl (fun es r => emplaceEntry es (makePreferred r.1, r.2.1, r.2.2))
        (emplaceEntry acc (makePreferred r.1, r.2.1, r.2.2))
        = (r :: rs).foldl (fun es r => emplaceEntry es (makePreferred r.1, r.2.1, r.2.2)) acc := rfl
    rw [← hstep] at *
    rw [ih, normalize_packEntry, lookupEntry_emplace]
    cases hl : lookupEntry acc n with
    | some x => rfl
    | none =>
      by_cases hr : (r.1 == n) = true
      · simp [hr, List.find?_cons_of_pos, hr]
      · have hr' : (r.1 == n) = false := by simpa using hr
        simp [hr', List.find?_cons_of_neg]

/-- Case-insensitive equality of path strings is symmetric. -/
theorem stricmpEq_symm (a b : String) : stricmpEq a b = stricmpEq b a := by
  unfold stricmpEq
  exact Bool.beq_comm

/-- Characterization of a failed duplicate search: `FindSearchPath` with the
path ID check returns nothing exactly when no registered search path has a
case-insensitively equal location together with an equal optional tag. -/
theorem findSearchPath_none (st : List SearchPath) (s : String) (pid : Option String) :
    findSearchPath st s true pid = none →
    ∀ p ∈ st, ¬(stricmpEq s p.szPath = true ∧ pid = p.pathID) := by
  induction st with
  | nil => intro _ p hp; cases hp
  | cons q rest ih =>
    intro h p hp
    unfold findSearchPath at h
    by_cases hc : (stricmpEq s q.szPath && (!true || pid == q.pathID)) = true
    · rw [if_pos hc] at h; cases h
    · rw [if_neg hc] at h
      rcases List.mem_cons.mp hp with hp | hp
      · subst hp
        rintro ⟨h1, h2⟩
        apply hc
        simp [h1, h2]
      · exact ih h p hp

/-- Membership is preserved by removal of the first matching path. -/
theorem mem_removeFirstPath (s : String) (l : List SearchPath) (q : SearchPath) :
    q ∈ removeFirstPath s l → q ∈ l := by
  induction l with
  | nil => intro h; cases h
  | cons p rest ih =>
    intro h
    unfold removeFirstPath at h
    by_cases hc : stricmpEq s p.szPath = true
    · rw [if_pos hc] at h; exact List.mem_cons_of_mem p h
    · rw [if_neg hc] at h
      rcases List.mem_cons.mp h with h | h
      · exact h ▸ List.mem_cons_self p rest
      · exact List.mem_cons_of_mem p (ih h)

/-- The pairwise distinctness invariant survives removal of the first
matching path. -/
theorem noDup_removeFirstPath (s : String) (l : List SearchPath) :
    NoDupPairs l → NoDupPairs (removeFirstPath s l) := by
  induction l with
  | nil => intro h; exact h
  | cons p rest ih =>
    intro h
    rcases List.pairwise_cons.mp h with ⟨hp, hrest⟩
    unfold removeFirstPath
    by_cases hc : stricmpEq s p.szPath = true
    · rw [if_pos hc]; exact hrest
    · rw [if_neg hc]
      exact List.pairwise_cons.mpr
        ⟨fun q hq => hp q (mem_removeFirstPath s rest q hq), ih hrest⟩

/-- One non-archive mount operation preserves the pairwise distinctness of
`(location, pathID)` pairs. -/
theorem noDup_applyMount (st : List SearchPath) (op : MountOp)
    (hst : NoDupPairs st) (hop : op.isPackOp = false) :
    NoDupPairs (applyMount st op) := by
  cases op with
  | addPack p pid records => cases hop
  | removeAll => exact List.Pairwise.nil
  | removePath p =>
    cases p with
    | none => exact hst
    | some s => exact noDup_removeFirstPath s st hst
  | addDir p pid ro =>
    cases p with
    | none => exact hst
    | some s =>
      show NoDupPairs (AddSearchPath st (some s) pid ro).1
      unfold AddSearchPath
      by_cases h1 : strstrB (String.toList (".bsp")) s.toList = true
      · simp only [h1, if_true]; exact hst
      · simp only [h1, if_false, Bool.false_eq_true]
        by_cases h2 : (findSearchPath st s true pid).isSome = true
        · simp only [h2, if_true]; exact hst
        · simp only [h2, if_false, Bool.false_eq_true]
          have hnone : findSearchPath st s true pid = none :=
            Option.not_isSome_iff_eq_none.mp (by simpa using h2)
          have hchar := findSearchPath_none st s pid hnone
          refine (List.pairwise_append).mpr ⟨hst, List.pairwise_singleton _ _, ?_⟩
          intro a ha b hb
          have hbeq : b = ⟨makePreferred s, pid, ro, false, []⟩ := by
            simpa using hb
          subst hbeq
          intro ⟨hpath, hpid⟩
          apply hchar a ha
          constructor
          · rw [stricmpEq_symm]
            simpa [makePreferred] using hpath
          · exact hpid.symm

/-- Every archive-free mount sequence, run from a distinct registry, keeps
the registry distinct. -/
theorem noDup_foldl (ops : List MountOp) (st : List SearchPath)
    (hst : NoDupPairs st) (hops : ∀ op ∈ ops, op.isPackOp = false) :
    NoDupPairs (ops.foldl applyMount st) := by
  induction ops generalizing st with
  | nil => exact hst
  | cons op ops ih =>
    exact ih (applyMount st op)
      (noDup_applyMount st op hst (hops op (List.mem_cons_self op ops)))
      (fun o ho => hops o (List.mem_cons_of_mem op ho))

/-- Registry outcomes of `AddSearchPath` on a non-null path: unchanged on
any failure, or the appended fresh non-archive search path. -/
theorem AddSearchPath_cases (st : List SearchPath) (s : String)
    (pid : Option String) (ro : Bool) :
    (AddSearchPath st (some s) pid ro).1 = st ∨
    (AddSearchPath st (some s) pid ro).1
      = st ++ [⟨makePreferred s, pid, ro, false, []⟩] := by
  simp only [AddSearchPath]
  by_cases h1 : strstrB (String.toList (".bsp")) s.toList = true
  · left; rw [if_pos h1]
  · by_cases h2 : (findSearchPath st s true pid).isSome = true
    · left; rw [if_neg h1, if_pos h2]
    · right; rw [if_neg h1, if_neg h2]

/-- One mount operation preserves the archive-implies-read-only invariant. -/
theorem packRO_applyMount (st : List SearchPath) (op : MountOp)
    (hst : PackRO st) : PackRO (applyMount st op) := by
  cases op with
  | removeAll => intro p hp; cases hp
  | removePath p =>
    cases p with
    | none => exact hst
    | some s => exact fun q hq => hst q (mem_removeFirstPath s st q hq)
  | addPack p pid records =>
    cases p with
    | none => exact hst
    | some fp =>
      cases records with
      | none => exact hst
      | some rs =>
        intro q hq
        rcases List.mem_append.mp hq with hq | hq
        · exact hst q hq
        · intro _
          have : q = ⟨makePreferred fp, pid, true, true, processPackEntries rs⟩ := by
            simpa using hq
          rw [this]
  | addDir p pid ro =>
    cases p with
    | none => exact hst
    | some s =>
      intro q hq
      have hap : applyMount st (MountOp.addDir (some s) pid ro)
          = (AddSearchPath st (some s) pid ro).1 := rfl
      rcases AddSearchPath_cases st s pid ro with hcase | hcase
      · rw [hap, hcase] at hq
        exact hst q hq
      · rw [hap, hcase] at hq
        rcases List.mem_append.mp hq with hq' | hq'
        · exact hst q hq'
        · have : q = ⟨makePreferred s, pid, ro, false, []⟩ := by simpa using hq'
          rw [this]
          intro hfalse
          cases hfalse

/-- Every registry reachable by mount operations satisfies the
archive-implies-read-only invariant. -/
theorem packRO_mountAll (ops : List MountOp) : PackRO (mountAll ops) := by
  have general : ∀ (l : List MountOp) (st : List SearchPath),
      PackRO st → PackRO (l.foldl applyMount st) := by
    intro l
    induction l with
    | nil => exact fun st h => h
    | cons op l ih => exact fun st h => ih (applyMount st op) (packRO_applyMount st op h)
  exact general ops [] (fun p hp => absurd hp (List.not_mem_nil p))

/-- Soundness of the `Open` search loop: a successful open returns a member
of the scanned list, and under write intent that member is not flagged
read-only (read-only paths are skipped before the OS open is attempted). -/
theorem openLoop_spec (env : OpenEnv) (nm op : String) (w : Bool) (pid : Option String)
    (l : List SearchPath) (p : SearchPath) (s : String) :
    openLoop env nm op w pid l = some (p, s) →
    p ∈ l ∧ (w = true → p.readOnly = false) := by
  induction l with
  | nil => intro h; cases h
  | cons q rest ih =>
    intro h
    unfold openLoop at h
    by_cases h1 : (q.readOnly && w) = true
    · rw [if_pos h1] at h
      rcases ih h with ⟨hmem, hro⟩
      exact ⟨List.mem_cons_of_mem q hmem, hro⟩
    · rw [if_neg h1] at h
      by_cases h2 : pidMismatchB pid q.pathID = true
      · rw [if_pos h2] at h
        rcases ih h with ⟨hmem, hro⟩
        exact ⟨List.mem_cons_of_mem q hmem, hro⟩
      · rw [if_neg h2] at h
        by_cases h3 : env.canOpen (makePreferred (joinPath q.szPath nm)) op = true
        · rw [if_pos h3] at h
          have hq : q = p := congrArg (fun r => (r.getD (q, s)).1) h
          subst hq
          refine ⟨List.mem_cons_self q rest, fun hw => ?_⟩
          cases hro : q.readOnly
          · rfl
          · exact absurd (by rw [hro, hw]; rfl) h1
        · rw [if_neg h3] at h
          rcases ih h with ⟨hmem, hro⟩
          exact ⟨List.mem_cons_of_mem q hmem, hro⟩

/-- Scanning the open-handle table for an absent identity finds nothing. -/
theorem closeScan_none (tbl : List (Nat × Bool)) (id : Nat) :
    (∀ e ∈ tbl, e.1 ≠ id) → closeScan tbl id = none := by
  induction tbl with
  | nil => intro _; rfl
  | cons e rest ih =>
    intro h
    have he : (e.1 == id) = false := by
      have := h e (List.mem_cons_self e rest)
      simpa using this
    unfold closeScan
    rw [he]
    simp only [Bool.false_eq_true, if_false]
    rw [ih (fun x hx => h x (List.mem_cons_of_mem e hx))]
    rfl

/-- The scan of `GetFileTime` agrees with the spec's first-match
formulation. -/
theorem gftLoop_eq_spec (env : FsEnv) (n : String) (st : List SearchPath) :
    gftLoop env n st = gftSpec st env n := by
  induction st with
  | nil => rfl
  | cons p rest ih =>
    by_cases hx : env.fsExists (joinPath p.szPath n) = true
    · have hf : List.find? (fun q => env.fsExists (joinPath q.szPath n)) (p :: rest)
          = some p := List.find?_cons_of_pos rest hx
      unfold gftLoop gftSpec
      rw [if_pos hx, hf]
    · have hf : List.find? (fun q => env.fsExists (joinPath q.szPath n)) (p :: rest)
          = List.find? (fun q => env.fsExists (joinPath q.szPath n)) rest :=
        List.find?_cons_of_neg rest (by simpa using hx)
      unfold gftLoop gftSpec
      rw [if_neg hx, hf, ih]
      rfl

/-- A lone `.*` matches every character sequence, the empty one included. -/
theorem rmatch_star (s : List Char) : rmatch [Tok.star] s = true := by
  induction s with
  | nil => rfl
  | cons x s ih =>
    show (x :: s).tails.any (fun t => rmatch [] t) = true
    rw [List.tails]
    rw [List.any_cons]
    have : s.tails.any (fun t => rmatch [] t) = true := ih
    rw [this]
    exact Bool.or_true _

/-- A sequence of literal tokens matches exactly the spelled-out string. -/
theorem rmatch_lits (p : List Char) : ∀ s : List Char,
    rmatch (p.map Tok.lit) s = true ↔ s = p := by
  induction p with
  | nil =>
    intro s
    cases s with
    | nil => simp [rmatch]
    | cons x s => simp [rmatch]
  | cons c p ih =>
    intro s
    cases s with
    | nil => simp [rmatch]
    | cons x s =>
      show ((x == c) && rmatch (p.map Tok.lit) s) = true ↔ x :: s = c :: p
      rw [Bool.and_eq_true, beq_iff_eq, ih s]
      constructor
      · rintro ⟨h1, h2⟩; rw [h1, h2]
      · intro h
        injection h with h1 h2
        exact ⟨h1, h2⟩

/-- On a pattern built only from regex-ordinary characters (in particular,
one holding neither `*` nor `.` nor any other special character), the
wildcard compiler produces only literal tokens. -/
theorem compileWildcard_ordinary (p : List Char)
    (h : p.all regexOrdinary = true) :
    compileWildcard p = p.map Tok.lit := by
  unfold compileWildcard
  apply List.map_congr_left
  intro c hc
  have hcp := List.all_eq_true.mp h c hc
  have h1 : (c == '*') = false := by
    cases hcc : (c == '*')
    · rfl
    · rw [beq_iff_eq.mp hcc] at hcp
      exact absurd hcp (by decide)
  have h2 : (c == '.') = false := by
    cases hcc : (c == '.')
    · rfl
    · rw [beq_iff_eq.mp hcc] at hcp
      exact absurd hcp (by decide)
  rw [h1, h2]
  rfl

/-! ## Claim theorems -/

/-- C1: evaluation of the failing input.  Opening the cached 64-byte archive
entry `sound/a.wav` at offset 128 yields a view whose cursor sits at the
window start, and reading 100 bytes from it reports 65 bytes — one byte
past the 64-byte window — because the clip bound of `CFileSystem::Read`
is computed as `length + 1`; the claim (and the spec scenario) require 64.
Reading exactly 64 bytes still reports 64. -/
theorem c1_read_returns_one_past_window :
    OpenFromCacheForRead c1Paths (some ("sound/a.wav")) (some ("rb")) none = some c1Handle
  ∧ Read 4096 c1Handle 100 = 65
  ∧ Read 4096 c1Handle 64 = 64 := ⟨rfl, rfl, rfl⟩

/-- C2: counterexample to the claim that `fileSize-by-name` scans the
registered search paths.  With `/base` mounted and the OS containing only
`/base/f` (size 10), the claimed first-match scan yields 10, but
`CFileSystem::Size(const char*)` queries the raw name `f` directly, gets the
error value of `fs::file_size`, and returns `2 ^ 32 - 1`, not 10. -/
theorem c2_counterexample :
    SizeName c2St c2Env (some ("f")) = 4294967295
  ∧ sizeSpecScan c2St c2Env ("f") = some 10
  ∧ SizeName c2St c2Env (some ("f")) ≠ 10 := ⟨rfl, rfl, by decide⟩

/-- C2 (amended): `fileSize-by-name` performs no search-path scan at all —
its result is independent of the registered search paths and is the
filesystem-level size of the given name used directly as an OS path — while
`fileTime` does perform the claimed ordered scan, returning the metadata of
the first matching physical path `location/relativePath`. -/
theorem c2_amended (st st' : List SearchPath) (env : FsEnv)
    (name : Option String) (n : String) :
    SizeName st env name = SizeName st' env name
  ∧ GetFileTime st env n = gftSpec st env n :=
  ⟨rfl, gftLoop_eq_spec env n st⟩

/-- C3: counterexample.  `addDirectory("", nullTag, false)` does not fail:
only a null pointer is rejected, so the empty string passes every guard,
the call returns true and the registry grows from size 0 to size 1. -/
theorem c3_counterexample :
    (AddSearchPath [] (some ("")) none false).2 = true
  ∧ ((AddSearchPath [] (some ("")) none false).1).length = 1 := ⟨rfl, rfl⟩

/-- C3 (amended): `addDirectory` with the empty path string succeeds
whenever no `("", pathID)` entry is already registered: it returns true and
appends one search path with empty location (registry size grows by one).
Failure occurs only for a null path, a path containing `.bsp`, or a
duplicate `(path, pathID)` pair. -/
theorem c3_amended (st : List SearchPath) (pid : Option String)
    (h : findSearchPath st ("") true pid = none) :
    AddSearchPath st (some ("")) pid false
      = (st ++ [⟨"", pid, false, false, []⟩], true) := by
  have e : AddSearchPath st (some ("")) pid false
      = (if (findSearchPath st ("") true pid).isSome then (st, false)
         else (st ++ [⟨"", pid, false, false, []⟩], true)) := rfl
  rw [e, h]
  rfl

/-- C3 (amended) witness: the amended statement evaluated on the empty
registry. -/
theorem c3_amended_witness :
    AddSearchPath [] (some ("")) none false
      = ([⟨"", none, false, false, []⟩], true) :=
  c3_amended [] none rfl

/-- C4: counterexample to last-wins.  Parsing two records that share the
name `a.wav` leaves the mapping holding the first record's
`(offset, length) = (10, 5)`, not the second record's `(20, 7)`: the
`emplace` of `ProcessPackFile` does not overwrite an existing key. -/
theorem c4_counterexample :
    lookupEntry (processPackEntries [(("a.wav"), 10, 5), (("a.wav"), 20, 7)]) ("a.wav")
      = some (("a.wav"), 10, 5)
  ∧ lookupEntry (processPackEntries [(("a.wav"), 10, 5), (("a.wav"), 20, 7)]) ("a.wav")
      ≠ some (("a.wav"), 20, 7) := ⟨rfl, by decide⟩

/-- C4 (amended): duplicate names in the pack directory are resolved
first-wins, not last-wins: for every record list, looking up a name in the
parsed mapping returns exactly the first record carrying that (normalized)
name. -/
theorem c4_amended (rs : List PackEntry) (n : String) :
    lookupEntry (processPackEntries rs) n = rs.find? (fun e => e.1 == n) :=
  lookupEntry_foldl rs [] n

/-- C5: evaluation of the failing input.  Closing the last (and only) valid
cursor of the table erases nothing and leaves the cursor still flagged
valid, because the reclaim loop of `FindClose` tests the flags of the
cursor being closed (which are `VALID`) instead of the flags of each
trailing cursor, and so breaks immediately; the claim requires the last
cursor to be removed.  Closing a non-last cursor correctly only clears its
`VALID` flag. -/
theorem c5_findclose_last_is_noop :
    FindClose [c5Cursor] 0 = [c5Cursor]
  ∧ FindClose [c5Cursor, c5Cursor] 0 = [⟨"", [], false, false⟩, c5Cursor] :=
  ⟨rfl, rfl⟩

/-- C6: counterexample to the uniqueness invariant.  `AddPackFile` performs
no duplicate check, so mounting the same archive twice under the same
(absent) path ID produces a registry with two search paths carrying the
identical `(location, pathID)` pair. -/
theorem c6_counterexample :
    ¬ NoDupPairs (mountAll c6Ops) ∧ (mountAll c6Ops).length = 2 := by
  constructor
  · decide
  · rfl

/-- C6 (amended): for every mount sequence that contains no `addArchive`
operation — i.e. only addDirectory, remove and removeAll — the registry
reached from empty never holds two search paths with the same
`(location, pathID)` pair under case-insensitive location comparison.
`addArchive` performs no duplicate check and can violate the invariant. -/
theorem c6_amended (ops : List MountOp)
    (h : ∀ op ∈ ops, op.isPackOp = false) : NoDupPairs (mountAll ops) :=
  noDup_foldl ops [] List.Pairwise.nil h

/-- C6 (amended) witness: a concrete archive-free mount sequence, with a
rejected duplicate, a scoped read-only mount and a removal, keeps the
registry duplicate-free. -/
theorem c6_amended_witness : NoDupPairs (mountAll c6WitnessOps) :=
  c6_amended c6WitnessOps (by decide)

/-- C7: counterexample to "every other character matches only itself
literally".  The translation leaves `.` unescaped, so the compiled regex of
`*.txt` matches `aatxt` (the `.` consumes the second `a`), while the
claim's all-literal reading of the pattern does not match it. -/
theorem c7_counterexample :
    rmatch (compileWildcard (String.toList ("*.txt"))) (String.toList ("aatxt")) = true
  ∧ rmatch (specCompile (String.toList ("*.txt"))) (String.toList ("aatxt")) = false := by
  decide

/-- C7 (amended): each bare `*` compiles to a match for any character
sequence including the empty one; characters other than `*` are passed to
the regex engine unescaped, so patterns free of regex metacharacters —
every character `regexOrdinary` — match exactly themselves, while `.` keeps
its regex meaning and matches any single character.  The examples hold:
`*.txt` matches `a.txt` and `dir/b.txt` but not `a.txt.bak`.  A pattern
that fails to compile yields the invalid find handle after a critical
warning, with the cursor table untouched. -/
theorem c7_amended :
    (∀ s : List Char, rmatch (compileWildcard ['*']) s = true)
  ∧ (∀ p s : List Char, p.all regexOrdinary = true →
      (rmatch (compileWildcard p) s = true ↔ s = p))
  ∧ (∀ x : Char, rmatch (compileWildcard ['.']) [x] = true)
  ∧ rmatch (compileWildcard (String.toList ("*.txt"))) (String.toList ("a.txt")) = true
  ∧ rmatch (compileWildcard (String.toList ("*.txt"))) (String.toList ("dir/b.txt")) = true
  ∧ rmatch (compileWildcard (String.toList ("*.txt"))) (String.toList ("a.txt.bak")) = false
  ∧ (∀ (tbl : List FindData) (pid : Option String) (adv : Option String),
      FindFirst tbl none pid adv = (tbl, none, [FileWarningLevel.critical])) := by
  refine ⟨?_, ?_, ?_, by decide, by decide, by decide, fun tbl pid adv => rfl⟩
  · intro s
    have hc : compileWildcard ['*'] = [Tok.star] := by decide
    rw [hc]
    exact rmatch_star s
  · intro p s hp
    rw [compileWildcard_ordinary p hp]
    exact rmatch_lits p s
  · intro x
    have hc : compileWildcard ['.'] = [Tok.anyc] := by decide
    rw [hc]
    rfl

/-- C7 (amended) witness: the literal-pattern equivalence applied to the
metacharacter-free pattern `ab` matching itself. -/
theorem c7_amended_witness :
    rmatch (compileWildcard (String.toList ("ab"))) (String.toList ("ab")) = true :=
  (c7_amended.2.1 (String.toList ("ab")) (String.toList ("ab")) (by decide)).mpr rfl

/-- C8: for every reachable registry, write-intent opens never select a
read-only or archive-backed search path — the `Open` scan skips read-only
paths under write intent and archive paths are always flagged read-only —
and `OpenFromCacheForRead` rejects any options containing `w` outright with
the invalid handle. -/
theorem c8_write_intent_safety (ops : List MountOp) (env : OpenEnv)
    (nm op : String) (pid : Option String) (p : SearchPath) (s : String)
    (hw : op.toList.contains 'w' = true)
    (hopen : Open (mountAll ops) env (some nm) (some op) pid = some (p, s)) :
    p.readOnly = false ∧ p.isPack = false
  ∧ OpenFromCacheForRead (mountAll ops) (some nm) (some op) pid = none := by
  have hopen' : openLoop env nm op true pid (mountAll ops) = some (p, s) := by
    have he : Open (mountAll ops) env (some nm) (some op) pid
        = openLoop env nm op (op.toList.contains 'w') pid (mountAll ops) := rfl
    rw [he, hw] at hopen
    exact hopen
  rcases openLoop_spec env nm op true pid (mountAll ops) p s hopen' with ⟨hmem, hro⟩
  have hro' : p.readOnly = false := hro rfl
  refine ⟨hro', ?_, ?_⟩
  · cases hpk : p.isPack
    · rfl
    · have hcontra := packRO_mountAll ops p hmem hpk
      rw [hro'] at hcontra
      cases hcontra
  · have he2 : OpenFromCacheForRead (mountAll ops) (some nm) (some op) pid
        = (if op.toList.contains 'w' then none else ofcfrLoop nm pid (mountAll ops)) := rfl
    rw [he2, hw]
    exact if_pos rfl

/-- C8 witness: a single writable directory mount, an always-succeeding OS
open oracle and the options string `w` give a successful write-intent open
of a path that is neither read-only nor archive-backed, while the cache
open is rejected. -/
theorem c8_witness :
    c8Path.readOnly = false ∧ c8Path.isPack = false
  ∧ OpenFromCacheForRead (mountAll c8Ops) (some ("f")) (some ("w")) none = none :=
  c8_write_intent_safety c8Ops c8Env ("f") ("w") none c8Path ("/mod/f")
    (by decide) (by decide)

/-- C9: for every open archive-view handle, `Seek` translates
`SEEK_FROM_START` to an underlying seek at `startOffset + pos` and
`SEEK_FROM_END` to an absolute (`SEEK_SET`) seek at
`startOffset + length + pos`; plain handles pass `(pos, origin)` to the
underlying seek unchanged; and `Tell` immediately after `seek(0, START)` on
an archive view returns 0. -/
theorem c9_seek_translation (streamLen : Nat) (h : FileHandle) (pos : Int)
    (hopen : h.isOpen = true) :
    (h.isPack = true →
      Seek streamLen h pos SeekType.head
          = { h with rawPos := fseekPos streamLen h.rawPos ((h.startOffset : Int) + pos) SeekType.head }
      ∧ Seek streamLen h pos SeekType.tail
          = { h with rawPos := fseekPos streamLen h.rawPos ((h.startOffset : Int) + (h.length : Int) + pos) SeekType.head }
      ∧ Tell (Seek streamLen h 0 SeekType.head) = 0)
  ∧ (h.isPack = false → ∀ o : SeekType,
      Seek streamLen h pos o = { h with rawPos := fseekPos streamLen h.rawPos pos o }) := by
  constructor
  · intro hpk
    refine ⟨?_, ?_, ?_⟩
    · simp only [Seek, hopen, hpk, Bool.not_true, Bool.false_eq_true, if_false, if_true]
      rw [Int.add_comm pos]
    · have e : pos + (h.startOffset : Int) + (h.length : Int)
          = (h.startOffset : Int) + (h.length : Int) + pos := by omega
      simp only [Seek, hopen, hpk, Bool.not_true, Bool.false_eq_true, if_false, if_true]
      rw [e]
    · have hne : ¬((0 : Int) + (h.startOffset : Int) < 0) := by omega
      have hnat : ((0 : Int) + (h.startOffset : Int)).toNat = h.startOffset := by omega
      have hseek : Seek streamLen h 0 SeekType.head = { h with rawPos := h.startOffset } := by
        simp only [Seek, hopen, hpk, Bool.not_true, Bool.false_eq_true, if_false, if_true,
          fseekPos]
        rw [if_neg hne, hnat]
      rw [hseek]
      simp [Tell, hopen, hpk]
  · intro hpk o
    cases o <;> simp [Seek, hopen, hpk]

/-- C9 witness: the translation and the zero `Tell` evaluated on a concrete
open archive view with window `(128, 64)`. -/
theorem c9_witness :
    Tell (Seek 4096 c9Handle 0 SeekType.head) = 0
  ∧ Seek 4096 c9Handle 5 SeekType.head
      = { c9Handle with
          rawPos := fseekPos 4096 c9Handle.rawPos ((c9Handle.startOffset : Int) + 5) SeekType.head } :=
  ⟨((c9_seek_translation 4096 c9Handle 0 rfl).1 rfl).2.2,
   ((c9_seek_translation 4096 c9Handle 5 rfl).1 rfl).1⟩

/-- C10: `Close` called with a non-null handle value absent from the
open-handle table returns with the table unchanged, closes no stream and
emits no warning. -/
theorem c10_close_absent_handle (tbl : List (Nat × Bool)) (id : Nat)
    (h : ∀ e ∈ tbl, e.1 ≠ id) : Close tbl (some id) = (tbl, []) := by
  have e : Close tbl (some id)
      = (match closeScan tbl id with
         | none => (tbl, [])
         | some (l, w) => (l, [w])) := rfl
  rw [e, closeScan_none tbl id h]

/-- C10 witness: closing the absent handle 2 against a table holding only
handle 1 changes nothing and warns nothing. -/
theorem c10_witness : Close [(1, true)] (some 2) = ([(1, true)], []) :=
  c10_close_absent_handle [(1, true)] 2 (by decide)

end PrototypeFS
